import Mathlib

/-!
Verification of the document-store access layer (`MongoService`) and the
project repository (`ProjectRepository`) of the projects-manager database
package.  The functions below are shallow embeddings of the TypeScript
source: `src/mongo/service.ts` and `src/repositories/project.ts`.

The external store is modelled as a map from collection names to document
lists; a document is an association list from field names to BSON-style
values.  The per-call connection lifecycle of `withConnection` is made
observable through an event list (`acquire`/`release`), and the various
ways the wrapped callback can end (returning a result, raising a driver
error, raising a plain error, raising a non-error value) are an explicit
inductive so the catch/finally normalization of the source is a total
function.
-/

/-- The closed error taxonomy of the access layer: `WrongId` (from
`@projects-manager/core`), `Deno.errors.NotFound`, `ParseError` (wrapping a
zod diagnostic), and `MongoError` (the store-error kind, with an optional
cause). -/
inductive MErr where
  | wrongId (cause : String)
  | notFound (msg : String)
  | parseError (cause : String)
  | mongoError (msg : String) (cause : Option String)
  deriving DecidableEq, Repr

/-- Hexadecimal value of a hex digit character (`0-9`, `a-f`, `A-F`). -/
def hexVal (c : Char) : Nat :=
  if 97 ≤ c.toNat then c.toNat - 87
  else if 65 ≤ c.toNat then c.toNat - 55
  else c.toNat - 48

/-- Lowercase hex digit character for a value below 16. -/
def hexChar (n : Nat) : Char :=
  if n < 10 then Char.ofNat (48 + n) else Char.ofNat (87 + n)

/-- Whether `c` is a hex digit (`0-9`, `a-f`, `A-F`).  The bson `ObjectId`
constructor validates its string input against exactly this alphabet,
case-insensitively. -/
def isHexDigitChar (c : Char) : Bool :=
  (48 ≤ c.toNat && c.toNat ≤ 57) ||
    (97 ≤ c.toNat && c.toNat ≤ 102) ||
    (65 ≤ c.toNat && c.toNat ≤ 70)

/-- The store's native identifier (a bson `ObjectId`), modelled by its
sequence of 24 hex-digit values. -/
structure ObjectId where
  nibbles : List Nat
  deriving DecidableEq, Repr

/-- `ObjectId.prototype.toString` / `toHexString`: the canonical rendering,
which is always lowercase hex. -/
def ObjectId.toHexString (o : ObjectId) : String :=
  ⟨o.nibbles.map hexChar⟩

/-- `MongoService.getIdFromString`: wraps the bson `ObjectId(string)`
constructor, which accepts exactly the 24-character hex strings (either
letter case) and throws otherwise; the catch wraps the throw as `WrongId`. -/
def MongoService.getIdFromString (s : String) : Except MErr ObjectId :=
  if s.data.length = 24 && s.data.all isHexDigitChar then
    .ok ⟨s.data.map hexVal⟩
  else
    .error (.wrongId ("input must be a 24 character hex string: " ++ s))

/-- BSON-style field values occurring in this repository: native
identifiers, strings, and dates (a date is an instant, modelled by an
integer). -/
inductive BVal where
  | oid (v : ObjectId)
  | str (s : String)
  | date (t : Int)
  deriving DecidableEq, Repr

/-- JavaScript `toString` of a field value (used by `transformId` on the
`_id` field, which in practice is always an `ObjectId`). -/
def BVal.render : BVal → String
  | .oid v => v.toHexString
  | .str s => s
  | .date t => toString t

/-- A stored document: an association list from field names to values
(JavaScript objects have unique keys; all operations below preserve key
uniqueness when given unique keys). -/
abbrev MDoc := List (String × BVal)

/-- The external store: collection name to document list, in natural
(insertion) order. -/
abbrev Store := List (String × List MDoc)

/-- JavaScript property write `obj[k] = v` (also the effect of one `$set`
entry): replace in place when the key exists, append otherwise. -/
def setField (d : MDoc) (k : String) (v : BVal) : MDoc :=
  if d.any (fun p => p.1 == k) then
    d.map (fun p => if p.1 == k then (k, v) else p)
  else d ++ [(k, v)]

/-- JavaScript `delete obj[k]`. -/
def removeField (d : MDoc) (k : String) : MDoc :=
  d.filter (fun p => p.1 != k)

/-- A MongoDB equality filter `{k₁:v₁, …}` matches a document when every
named field is present with the given value. -/
def matchesFilter (q : MDoc) (d : MDoc) : Bool :=
  q.all (fun p => d.lookup p.1 == some p.2)

/-- The documents of a collection (a missing collection reads as empty). -/
def getColl (st : Store) (c : String) : List MDoc :=
  (st.lookup c).getD []

/-- Replace the contents of a collection. -/
def setColl (st : Store) (c : String) (docs : List MDoc) : Store :=
  if st.any (fun p => p.1 == c) then
    st.map (fun p => if p.1 == c then (c, docs) else p)
  else st ++ [(c, docs)]

/-- A zod schema, seen extensionally: `safeParse` either yields a typed
value or a diagnostic. -/
abbrev MSchema (α : Type) := MDoc → Except String α

/-- `z.array(schema).safeParse`: parse every element, failing with the
diagnostic of the first non-conforming element. -/
def parseArray {α : Type} (schema : MSchema α) : List MDoc → Except String (List α)
  | [] => .ok []
  | d :: ds =>
    match schema d with
    | .error e => .error e
    | .ok t =>
      match parseArray schema ds with
      | .error e => .error e
      | .ok ts => .ok (t :: ts)

/-- Connection lifecycle events of one access-layer call. -/
inductive DbEvent where
  | acquire
  | release
  deriving DecidableEq, Repr

/-- How the body of `withConnection` (the `connect` call plus the wrapped
callback) can end: with a returned `Result`, or by raising a `MongoError`,
a plain `Error`, or a non-`Error` value. -/
inductive ConnOutcome (α : Type) where
  | ret (r : Except MErr α)
  | threwMongo (msg : String)
  | threwError (msg : String)
  | threwNonError

/-- `MongoService.withConnection`: connect, run the callback, pass its
`Result` through; catch a raised `MongoError` as-is, wrap a raised plain
`Error` into a `MongoError` keeping it as the cause, and turn any
non-`Error` throw into `MongoError "An unknown error occurred"`; the
`finally` closes the connection on every path.  The second component is
the connection event trace of the call. -/
def MongoService.withConnection {α : Type} (outcome : ConnOutcome α) :
    Except MErr α × List DbEvent :=
  match outcome with
  | .ret (.ok v) => (.ok v, [.acquire, .release])
  | .ret (.error e) => (.error e, [.acquire, .release])
  | .threwMongo m => (.error (.mongoError m none), [.acquire, .release])
  | .threwError m => (.error (.mongoError m (some m)), [.acquire, .release])
  | .threwNonError =>
    (.error (.mongoError "An unknown error occurred" none), [.acquire, .release])

/-- `MongoService.transformId`: `{ ...document, id: document._id.toString() }`
when `_id` is present, then `delete result._id`. -/
def MongoService.transformId (d : MDoc) : MDoc :=
  let result :=
    match d.lookup "_id" with
    | some v => setField d "id" (.str v.render)
    | none => d
  removeField result "_id"

/-- `MongoService.getOne`: `findOne(query)` under `withConnection`; a null
result is `NotFound`; otherwise `transformId` then `schema.safeParse`. -/
def MongoService.getOne {α : Type} (st : Store) (collection : String)
    (query : MDoc) (schema : MSchema α) : Except MErr α × List DbEvent :=
  let conn := MongoService.withConnection
    (.ret (.ok ((getColl st collection).find? (matchesFilter query))))
  match conn.1 with
  | .error e => (.error e, conn.2)
  | .ok none => (.error (.notFound "Document not found"), conn.2)
  | .ok (some doc) =>
    match schema (MongoService.transformId doc) with
    | .error ze => (.error (.parseError ze), conn.2)
    | .ok t => (.ok t, conn.2)

/-- `MongoService.getMany`: `find(query).toArray()` under `withConnection`
(the filter defaults to match-all), then `z.array(schema).safeParse` of the
`transformId`-normalized documents. -/
def MongoService.getMany {α : Type} (st : Store) (collection : String)
    (schema : MSchema α) (query : MDoc := []) :
    Except MErr (List α) × List DbEvent :=
  let conn := MongoService.withConnection
    (.ret (.ok ((getColl st collection).filter (matchesFilter query))))
  match conn.1 with
  | .error e => (.error e, conn.2)
  | .ok docs =>
    match parseArray schema (docs.map MongoService.transformId) with
    | .error ze => (.error (.parseError ze), conn.2)
    | .ok ts => (.ok ts, conn.2)

/-- `MongoService.insertOne`: insert `{ ...document }` (the store assigns
`newId` as `_id` when the document carries none) and return
`insertedId.toString()`, guarding against a falsy id. -/
def MongoService.insertOne (st : Store) (collection : String) (document : MDoc)
    (newId : ObjectId) : (Except MErr String × List DbEvent) × Store :=
  let inserted :=
    if (document.lookup "_id").isSome then document
    else setField document "_id" (.oid newId)
  let insertedId :=
    match document.lookup "_id" with
    | some v => v.render
    | none => newId.toHexString
  let st2 := setColl st collection (getColl st collection ++ [inserted])
  let conn := MongoService.withConnection (.ret (.ok insertedId))
  match conn.1 with
  | .error e => ((.error e, conn.2), st)
  | .ok id =>
    if id = "" then ((.error (.mongoError "failed to return the id" none), conn.2), st2)
    else ((.ok id, conn.2), st2)

/-- `$set` merge: write each updated field onto the document, leaving every
other field as stored. -/
def applySet (upd : MDoc) (d : MDoc) : MDoc :=
  upd.foldl (fun acc p => setField acc p.1 p.2) d

/-- `updateOne` touches only the first document matching the filter. -/
def updateFirst (p : MDoc → Bool) (f : MDoc → MDoc) : List MDoc → List MDoc
  | [] => []
  | d :: ds => if p d then f d :: ds else d :: updateFirst p f ds

/-- `deleteOne` removes only the first document matching the filter. -/
def removeFirst (p : MDoc → Bool) : List MDoc → List MDoc
  | [] => []
  | d :: ds => if p d then ds else d :: removeFirst p ds

/-- `MongoService.update`: `updateOne(query, { $set: update })` under
`withConnection` (the filter defaults to match-all); a zero
`matchedCount` is `NotFound` and leaves the store untouched; no upsert. -/
def MongoService.update (st : Store) (collection : String) (upd : MDoc)
    (query : MDoc := []) : (Except MErr Unit × List DbEvent) × Store :=
  let docs := getColl st collection
  if docs.any (matchesFilter query) then
    let conn := MongoService.withConnection (ConnOutcome.ret (.ok ()))
    ((conn.1, conn.2),
      setColl st collection (updateFirst (matchesFilter query) (applySet upd) docs))
  else
    let conn := MongoService.withConnection
      (ConnOutcome.ret (Except.error (MErr.notFound "Document not found")))
    ((conn.1, conn.2), st)

/-- `MongoService.delete`: `deleteOne(query)` under `withConnection`; a zero
`deletedCount` is `NotFound` and leaves the store untouched. -/
def MongoService.delete (st : Store) (collection : String) (query : MDoc) :
    (Except MErr Unit × List DbEvent) × Store :=
  let docs := getColl st collection
  if docs.any (matchesFilter query) then
    let conn := MongoService.withConnection (ConnOutcome.ret (.ok ()))
    ((conn.1, conn.2), setColl st collection (removeFirst (matchesFilter query) docs))
  else
    let conn := MongoService.withConnection
      (ConnOutcome.ret (Except.error (MErr.notFound "Document not found")))
    ((conn.1, conn.2), st)

/-- `MongoService.aggregate`: run an opaque store-defined pipeline under
`withConnection` and validate each output document; no `_id` renaming. -/
def MongoService.aggregate {α : Type} (st : Store) (collection : String)
    (pipeline : List MDoc → List MDoc) (schema : MSchema α) :
    Except MErr (List α) × List DbEvent :=
  let conn := MongoService.withConnection (.ret (.ok (pipeline (getColl st collection))))
  match conn.1 with
  | .error e => (.error e, conn.2)
  | .ok docs =>
    match parseArray schema docs with
    | .error ze => (.error (.parseError ze), conn.2)
    | .ok ts => (.ok ts, conn.2)

/-- `MongoService.removeCollection`: drop the named collection under
`withConnection`. -/
def MongoService.removeCollection (st : Store) (collection : String) :
    (Except MErr Unit × List DbEvent) × Store :=
  let conn := MongoService.withConnection (ConnOutcome.ret (.ok ()))
  ((conn.1, conn.2), setColl st collection [])

/-- The domain entity of `src/repositories/project.ts` (the zod `schema`
there: string `id`, string `name`, string `description`, date
`createdAt`/`updatedAt`). -/
structure Project where
  id : String
  name : String
  description : String
  createdAt : Int
  updatedAt : Int
  deriving DecidableEq, Repr

/-- `Omit<Project, "id">`: the shape passed to `create`. -/
structure ProjectFields where
  name : String
  description : String
  createdAt : Int
  updatedAt : Int
  deriving DecidableEq, Repr

/-- The project zod schema as a parse function: a plain `z.object`, which
requires each named field with its type and ignores extra keys. -/
def projectSchema : MSchema Project := fun d =>
  match d.lookup "id", d.lookup "name", d.lookup "description",
      d.lookup "createdAt", d.lookup "updatedAt" with
  | some (.str i), some (.str n), some (.str de), some (.date c), some (.date u) =>
    .ok ⟨i, n, de, c, u⟩
  | _, _, _, _, _ => .error "invalid project document"

/-- The field spread of a `Project` value as passed to the access layer by
`ProjectRepository.update` (note: the string `id` field is included). -/
def projectToDoc (p : Project) : MDoc :=
  [("id", .str p.id), ("name", .str p.name), ("description", .str p.description),
    ("createdAt", .date p.createdAt), ("updatedAt", .date p.updatedAt)]

/-- The field spread of an id-less project as passed by
`ProjectRepository.create`. -/
def projectFieldsToDoc (p : ProjectFields) : MDoc :=
  [("name", .str p.name), ("description", .str p.description),
    ("createdAt", .date p.createdAt), ("updatedAt", .date p.updatedAt)]

/-- `ProjectRepository.getAll`: decode the owner id (failing early with
`WrongId`), fetch every document of `"projects"` whose `userId` equals the
decoded owner, and remap each validated row onto the entity shape. -/
def ProjectRepository.getAll (st : Store) (userId : String) :
    Except MErr (List Project) × List DbEvent :=
  match MongoService.getIdFromString userId with
  | .error e => (.error e, [])
  | .ok uid =>
    let r := MongoService.getMany st "projects" projectSchema [("userId", .oid uid)]
    match r.1 with
    | .error e => (.error e, r.2)
    | .ok projects =>
      (.ok (projects.map fun p => ⟨p.id, p.name, p.description, p.createdAt, p.updatedAt⟩),
        r.2)

/-- `ProjectRepository.getById`: decode the owner id then the project id
(failing early with `WrongId`), look up the single document matching both
the native `_id` and the `userId` ownership field, and overwrite the
validated row's `id` with the caller-supplied string. -/
def ProjectRepository.getById (st : Store) (id : String) (user : String) :
    Except MErr Project × List DbEvent :=
  match MongoService.getIdFromString user with
  | .error e => (.error e, [])
  | .ok uid =>
    match MongoService.getIdFromString id with
    | .error e => (.error e, [])
    | .ok pid =>
      let r := MongoService.getOne st "projects"
        [("_id", .oid pid), ("userId", .oid uid)] projectSchema
      match r.1 with
      | .error e => (.error e, r.2)
      | .ok project => (.ok { project with id := id }, r.2)

/-- `ProjectRepository.create`: decode the owner id (failing early with
`WrongId`) and insert the entity fields plus the native-form `userId`. -/
def ProjectRepository.create (st : Store) (project : ProjectFields)
    (userId : String) (newId : ObjectId) :
    (Except MErr String × List DbEvent) × Store :=
  match MongoService.getIdFromString userId with
  | .error e => ((.error e, []), st)
  | .ok uid =>
    MongoService.insertOne st "projects"
      (projectFieldsToDoc project ++ [("userId", .oid uid)]) newId

/-- `ProjectRepository.update`: decode the entity's own id (failing early
with `WrongId`) and `$set` the entity's fields on the document matching
`_id` only — no ownership field in the filter. -/
def ProjectRepository.update (st : Store) (project : Project) :
    (Except MErr Unit × List DbEvent) × Store :=
  match MongoService.getIdFromString project.id with
  | .error e => ((.error e, []), st)
  | .ok pid =>
    MongoService.update st "projects" (projectToDoc project) [("_id", .oid pid)]

/-- `ProjectRepository.delete`: decode the id (failing early with
`WrongId`) and remove the document matching `_id` only — no ownership
field in the filter. -/
def ProjectRepository.delete (st : Store) (id : String) :
    (Except MErr Unit × List DbEvent) × Store :=
  match MongoService.getIdFromString id with
  | .error e => ((.error e, []), st)
  | .ok pid =>
    MongoService.delete st "projects" [("_id", .oid pid)]

/-! ### Concrete sample data, used to evaluate the theorems on inputs -/

def samplePid : ObjectId := ⟨List.replicate 24 0⟩

def sampleUid : ObjectId := ⟨List.replicate 24 10⟩

def otherUid : ObjectId := ⟨List.replicate 24 11⟩

def pidStr : String := "000000000000000000000000"

def uidStr : String := "aaaaaaaaaaaaaaaaaaaaaaaa"

def otherUidStr : String := "bbbbbbbbbbbbbbbbbbbbbbbb"

def sampleDoc : MDoc :=
  [("_id", .oid samplePid), ("userId", .oid sampleUid),
    ("name", .str "Project 1"), ("description", .str "Description"),
    ("createdAt", .date 0), ("updatedAt", .date 1)]

def sampleStore : Store := [("projects", [sampleDoc])]

def sampleProject : Project := ⟨pidStr, "Project 1", "Description", 0, 1⟩

/-! ### Association-list helper lemmas -/

theorem lookup_map_replace_self (d : MDoc) (k : String) (v : BVal)
    (h : d.any (fun p => p.1 == k) = true) :
    (d.map (fun p => if p.1 == k then (k, v) else p)).lookup k = some v := by
  induction d with
  | nil => simp at h
  | cons p ds ih =>
    simp only [List.any_cons, Bool.or_eq_true] at h
    by_cases hp : p.1 = k
    · simp [hp]
    · have hb : (p.1 == k) = false := beq_false_of_ne hp
      have hk : (k == p.1) = false := beq_false_of_ne (fun hh => hp hh.symm)
      simp only [List.map_cons, hb, Bool.false_eq_true, if_false]
      rw [List.lookup_cons]
      simp only [hk]
      apply ih
      rcases h with h1 | h2
      · rw [hb] at h1; cases h1
      · exact h2

theorem lookup_setField_self (d : MDoc) (k : String) (v : BVal) :
    (setField d k v).lookup k = some v := by
  unfold setField
  split
  · exact lookup_map_replace_self d k v (by assumption)
  · rename_i h
    have hnone : d.lookup k = none := by
      rw [List.lookup_eq_none_iff]
      intro p hp
      simp only [List.any_eq_true, not_exists, not_and] at h
      have hpk := h p hp
      simp only [bne_iff_ne, ne_eq]
      intro hkp
      exact hpk (by simp [hkp])
    rw [List.lookup_append, hnone]
    simp

theorem lookup_setField_ne (d : MDoc) (k a : String) (v : BVal) (h : a ≠ k) :
    (setField d k v).lookup a = d.lookup a := by
  unfold setField
  split
  · rename_i hany
    clear hany
    induction d with
    | nil => simp
    | cons p ds ih =>
      simp only [List.map_cons]
      by_cases hp : p.1 = k
      · have hb : (p.1 == k) = true := by simp [hp]
        have h1 : (a == k) = false := beq_false_of_ne h
        have h2 : (a == p.1) = false := beq_false_of_ne (by rw [hp]; exact h)
        simp only [hb, if_true]
        rw [List.lookup_cons, List.lookup_cons]
        simp only [h1, h2]
        exact ih
      · have hb : (p.1 == k) = false := beq_false_of_ne hp
        simp only [hb, Bool.false_eq_true, if_false]
        rw [List.lookup_cons, List.lookup_cons]
        cases hEq : (a == p.1) with
        | true => rfl
        | false => exact ih
  · rw [List.lookup_append]
    have hsing : ([(k, v)] : MDoc).lookup a = none := by
      rw [List.lookup_eq_none_iff]
      intro p hp
      simp only [List.mem_singleton] at hp
      simp [hp, h]
    rw [hsing]
    cases d.lookup a <;> rfl

theorem lookup_removeField_self (d : MDoc) (k : String) :
    (removeField d k).lookup k = none := by
  unfold removeField
  rw [List.lookup_eq_none_iff]
  intro p hp
  have hmem := List.of_mem_filter hp
  simp only [bne_iff_ne, ne_eq] at hmem ⊢
  exact fun hh => hmem hh.symm

theorem lookup_removeField_ne (d : MDoc) (k a : String) (h : a ≠ k) :
    (removeField d k).lookup a = d.lookup a := by
  unfold removeField
  induction d with
  | nil => simp
  | cons p ds ih =>
    by_cases hp : p.1 = k
    · have hb : (p.1 != k) = false := by simp [hp]
      simp only [List.filter_cons, hb, Bool.false_eq_true, if_false]
      rw [List.lookup_cons]
      have h2 : (a == p.1) = false := beq_false_of_ne (by rw [hp]; exact h)
      simp only [h2]
      exact ih
    · have hb : (p.1 != k) = true := by simp [hp]
      simp only [List.filter_cons, hb, if_true]
      rw [List.lookup_cons, List.lookup_cons]
      cases hEq : (a == p.1) with
      | true => rfl
      | false => exact ih

theorem lookup_applySet_of_not_mem (upd : MDoc) (d : MDoc) (k : String)
    (h : upd.lookup k = none) :
    (applySet upd d).lookup k = d.lookup k := by
  induction upd generalizing d with
  | nil => rfl
  | cons p rest ih =>
    rw [List.lookup_cons] at h
    cases hEq : (k == p.1) with
    | true => simp [hEq] at h
    | false =>
      simp only [hEq] at h
      show (applySet rest (setField d p.1 p.2)).lookup k = d.lookup k
      rw [ih (setField d p.1 p.2) h,
        lookup_setField_ne d p.1 k p.2 (by simpa using hEq)]

theorem parseArray_ok_member {α : Type} (schema : MSchema α) (ds : List MDoc)
    (ts : List α) (h : parseArray schema ds = .ok ts) :
    ∀ t ∈ ts, ∃ d ∈ ds, schema d = .ok t := by
  induction ds generalizing ts with
  | nil =>
    unfold parseArray at h
    cases h
    intro t ht; cases ht
  | cons d rest ih =>
    unfold parseArray at h
    cases hd : schema d with
    | error e => rw [hd] at h; cases h
    | ok t0 =>
      rw [hd] at h
      cases hr : parseArray schema rest with
      | error e => rw [hr] at h; cases h
      | ok ts0 =>
        rw [hr] at h
        cases h
        intro t ht
        rcases List.mem_cons.mp ht with h1 | h2
        · exact ⟨d, List.mem_cons_self d rest, by rw [hd, h1]⟩
        · rcases ih ts0 hr t h2 with ⟨d2, hd2, hs2⟩
          exact ⟨d2, List.mem_cons_of_mem d hd2, hs2⟩

theorem getIdFromString_error_shape (s : String) (e : MErr)
    (h : MongoService.getIdFromString s = .error e) : ∃ c, e = .wrongId c := by
  unfold MongoService.getIdFromString at h
  split at h
  · cases h
  · exact ⟨_, (Except.error.injEq _ _).mp h |>.symm⟩

/-! ### Unfolding equations for the access-layer operations -/

theorem getOne_of_find_none {α : Type} (st : Store) (c : String) (q : MDoc)
    (schema : MSchema α) (h : (getColl st c).find? (matchesFilter q) = none) :
    MongoService.getOne st c q schema
      = (.error (.notFound "Document not found"), [DbEvent.acquire, DbEvent.release]) := by
  unfold MongoService.getOne MongoService.withConnection
  rw [h]

theorem getOne_of_find_some_ok {α : Type} (st : Store) (c : String) (q : MDoc)
    (schema : MSchema α) (d : MDoc) (t : α)
    (hF : (getColl st c).find? (matchesFilter q) = some d)
    (hS : schema (MongoService.transformId d) = .ok t) :
    MongoService.getOne st c q schema = (.ok t, [DbEvent.acquire, DbEvent.release]) := by
  unfold MongoService.getOne MongoService.withConnection
  rw [hF]
  dsimp only
  rw [hS]

theorem getOne_of_find_some_err {α : Type} (st : Store) (c : String) (q : MDoc)
    (schema : MSchema α) (d : MDoc) (ze : String)
    (hF : (getColl st c).find? (matchesFilter q) = some d)
    (hS : schema (MongoService.transformId d) = .error ze) :
    MongoService.getOne st c q schema
      = (.error (.parseError ze), [DbEvent.acquire, DbEvent.release]) := by
  unfold MongoService.getOne MongoService.withConnection
  rw [hF]
  dsimp only
  rw [hS]

theorem getOne_ok_inv {α : Type} (st : Store) (c : String) (q : MDoc)
    (schema : MSchema α) (t : α)
    (h : (MongoService.getOne st c q schema).1 = .ok t) :
    ∃ d, (getColl st c).find? (matchesFilter q) = some d
      ∧ schema (MongoService.transformId d) = .ok t := by
  cases hF : (getColl st c).find? (matchesFilter q) with
  | none => rw [getOne_of_find_none st c q schema hF] at h; cases h
  | some d =>
    cases hS : schema (MongoService.transformId d) with
    | error ze => rw [getOne_of_find_some_err st c q schema d ze hF hS] at h; cases h
    | ok t0 =>
      rw [getOne_of_find_some_ok st c q schema d t0 hF hS] at h
      cases h
      exact ⟨d, rfl, hS⟩

theorem getMany_of_parse_ok {α : Type} (st : Store) (c : String) (schema : MSchema α)
    (q : MDoc) (ts : List α)
    (hP : parseArray schema
        (((getColl st c).filter (matchesFilter q)).map MongoService.transformId)
      = .ok ts) :
    MongoService.getMany st c schema q = (.ok ts, [DbEvent.acquire, DbEvent.release]) := by
  unfold MongoService.getMany MongoService.withConnection
  dsimp only
  rw [hP]

theorem getMany_of_parse_err {α : Type} (st : Store) (c : String) (schema : MSchema α)
    (q : MDoc) (ze : String)
    (hP : parseArray schema
        (((getColl st c).filter (matchesFilter q)).map MongoService.transformId)
      = .error ze) :
    MongoService.getMany st c schema q
      = (.error (.parseError ze), [DbEvent.acquire, DbEvent.release]) := by
  unfold MongoService.getMany MongoService.withConnection
  dsimp only
  rw [hP]

theorem getMany_ok_inv {α : Type} (st : Store) (c : String) (schema : MSchema α)
    (q : MDoc) (ts : List α) (h : (MongoService.getMany st c schema q).1 = .ok ts) :
    parseArray schema
        (((getColl st c).filter (matchesFilter q)).map MongoService.transformId)
      = .ok ts := by
  cases hP : parseArray schema
      (((getColl st c).filter (matchesFilter q)).map MongoService.transformId) with
  | error ze => rw [getMany_of_parse_err st c schema q ze hP] at h; cases h
  | ok ts0 => rw [getMany_of_parse_ok st c schema q ts0 hP] at h; cases h; rfl

theorem update_of_no_match (st : Store) (c : String) (upd q : MDoc)
    (h : (getColl st c).any (matchesFilter q) = false) :
    MongoService.update st c upd q
      = ((.error (.notFound "Document not found"), [DbEvent.acquire, DbEvent.release]), st) := by
  unfold MongoService.update MongoService.withConnection
  dsimp only
  rw [h]
  rfl

theorem update_of_match (st : Store) (c : String) (upd q : MDoc)
    (h : (getColl st c).any (matchesFilter q) = true) :
    MongoService.update st c upd q
      = (((.ok ()), [DbEvent.acquire, DbEvent.release]),
          setColl st c (updateFirst (matchesFilter q) (applySet upd) (getColl st c))) := by
  unfold MongoService.update MongoService.withConnection
  dsimp only
  rw [h]
  rfl

theorem delete_of_no_match (st : Store) (c : String) (q : MDoc)
    (h : (getColl st c).any (matchesFilter q) = false) :
    MongoService.delete st c q
      = ((.error (.notFound "Document not found"), [DbEvent.acquire, DbEvent.release]), st) := by
  unfold MongoService.delete MongoService.withConnection
  dsimp only
  rw [h]
  rfl

theorem delete_of_match (st : Store) (c : String) (q : MDoc)
    (h : (getColl st c).any (matchesFilter q) = true) :
    MongoService.delete st c q
      = (((.ok ()), [DbEvent.acquire, DbEvent.release]),
          setColl st c (removeFirst (matchesFilter q) (getColl st c))) := by
  unfold MongoService.delete MongoService.withConnection
  dsimp only
  rw [h]
  rfl

/-! ### Claim theorems -/

/-- C7: every way the connected body of an access-layer call can end —
returning a success, returning a typed error, raising a driver
`MongoError`, raising a plain `Error`, or raising a non-`Error` value — is
normalized by `withConnection` into the closed `Result` taxonomy: returned
results pass through unchanged, a raised `MongoError` is kept, a raised
plain `Error` is wrapped into a store error that keeps it as the cause,
and an unknown non-`Error` failure becomes the store error
"An unknown error occurred".  No case escapes as an exception. -/
theorem MongoService.withConnection_normalizes (α : Type) :
    (∀ r : Except MErr α,
        MongoService.withConnection (ConnOutcome.ret r)
          = (r, [DbEvent.acquire, DbEvent.release]))
    ∧ (∀ m, MongoService.withConnection (ConnOutcome.threwMongo m : ConnOutcome α)
        = (.error (.mongoError m none), [DbEvent.acquire, DbEvent.release]))
    ∧ (∀ m, MongoService.withConnection (ConnOutcome.threwError m : ConnOutcome α)
        = (.error (.mongoError m (some m)), [DbEvent.acquire, DbEvent.release]))
    ∧ MongoService.withConnection (ConnOutcome.threwNonError : ConnOutcome α)
        = (.error (.mongoError "An unknown error occurred" none),
            [DbEvent.acquire, DbEvent.release]) := by
  refine ⟨fun r => ?_, fun m => rfl, fun m => rfl, rfl⟩
  cases r <;> rfl

/-- C2: `getOne` yields `NotFound` exactly when the single-document lookup
matches nothing; when it matches a document, the document is normalized
(`_id` dropped, canonical string `id` added) and validated against the
supplied schema, yielding the parsed value on success and `ParseError`
with the validation diagnostic on failure. -/
theorem MongoService.getOne_spec {α : Type} (st : Store) (c : String) (q : MDoc)
    (schema : MSchema α) :
    ((MongoService.getOne st c q schema).1 = .error (.notFound "Document not found") ↔
        (getColl st c).find? (matchesFilter q) = none)
    ∧ (∀ d, (getColl st c).find? (matchesFilter q) = some d →
        (∀ t, schema (MongoService.transformId d) = .ok t →
            (MongoService.getOne st c q schema).1 = .ok t)
        ∧ (∀ ze, schema (MongoService.transformId d) = .error ze →
            (MongoService.getOne st c q schema).1 = .error (.parseError ze)))
    ∧ (∀ d, (MongoService.transformId d).lookup "_id" = none)
    ∧ (∀ d v, d.lookup "_id" = some v →
        (MongoService.transformId d).lookup "id" = some (.str (BVal.render v))) := by
  refine ⟨⟨?_, ?_⟩, ?_, ?_, ?_⟩
  · intro h
    cases hF : (getColl st c).find? (matchesFilter q) with
    | none => rfl
    | some d =>
      cases hS : schema (MongoService.transformId d) with
      | error ze =>
        rw [getOne_of_find_some_err st c q schema d ze hF hS] at h
        simp at h
      | ok t =>
        rw [getOne_of_find_some_ok st c q schema d t hF hS] at h
        simp at h
  · intro hF
    rw [getOne_of_find_none st c q schema hF]
  · intro d hF
    refine ⟨fun t hS => ?_, fun ze hS => ?_⟩
    · rw [getOne_of_find_some_ok st c q schema d t hF hS]
    · rw [getOne_of_find_some_err st c q schema d ze hF hS]
  · intro d
    unfold MongoService.transformId
    cases d.lookup "_id" <;> exact lookup_removeField_self _ "_id"
  · intro d v h
    unfold MongoService.transformId
    rw [h]
    dsimp only
    rw [lookup_removeField_ne _ "_id" "id" (by decide), lookup_setField_self]

theorem updateFirst_length (p : MDoc → Bool) (f : MDoc → MDoc) (ds : List MDoc) :
    (updateFirst p f ds).length = ds.length := by
  induction ds with
  | nil => rfl
  | cons d ds ih =>
    unfold updateFirst
    split
    · simp
    · simpa using ih

/-- C3: the access layer's `update` performs a `$set`-style partial merge —
a field absent from the update keeps its stored value — on exactly the
first document matching the filter; when no document matches it returns
`NotFound` and leaves the store state unchanged, never inserting. -/
theorem MongoService.update_spec (st : Store) (c : String) (upd q : MDoc) :
    ((∀ d ∈ getColl st c, matchesFilter q d = false) →
        (MongoService.update st c upd q).1.1 = .error (.notFound "Document not found")
        ∧ (MongoService.update st c upd q).2 = st)
    ∧ ((∃ d ∈ getColl st c, matchesFilter q d = true) →
        (MongoService.update st c upd q).1.1 = .ok ()
        ∧ (MongoService.update st c upd q).2
            = setColl st c (updateFirst (matchesFilter q) (applySet upd) (getColl st c)))
    ∧ (∀ d k, upd.lookup k = none → (applySet upd d).lookup k = d.lookup k)
    ∧ (∀ (p : MDoc → Bool) (f : MDoc → MDoc) (ds : List MDoc),
        (updateFirst p f ds).length = ds.length)
    ∧ (∀ (p : MDoc → Bool) (f : MDoc → MDoc) (d : MDoc) (ds : List MDoc),
        (p d = true → updateFirst p f (d :: ds) = f d :: ds)
        ∧ (p d = false → updateFirst p f (d :: ds) = d :: updateFirst p f ds)) := by
  refine ⟨?_, ?_, lookup_applySet_of_not_mem upd, updateFirst_length, ?_⟩
  · intro h
    have hany : (getColl st c).any (matchesFilter q) = false := by
      rw [List.any_eq_false]
      intro d hd
      rw [h d hd]
      exact Bool.false_ne_true
    rw [update_of_no_match st c upd q hany]
    exact ⟨rfl, rfl⟩
  · intro h
    have hany : (getColl st c).any (matchesFilter q) = true := List.any_eq_true.mpr h
    rw [update_of_match st c upd q hany]
    exact ⟨rfl, rfl⟩
  · intro p f d ds
    refine ⟨fun h => ?_, fun h => ?_⟩
    · simp only [updateFirst]
      rw [if_pos h]
    · simp only [updateFirst]
      rw [if_neg (by rw [h]; exact Bool.false_ne_true)]

/-- C10: the access layer's `update` accepts a call with the filter
omitted, defaulting it to the match-all filter (which matches every
document); such a call applies the `$set` merge to the first document of
the collection and yields `NotFound` exactly when the collection is
empty. -/
theorem MongoService.update_default_filter (st : Store) (c : String) (upd : MDoc) :
    MongoService.update st c upd = MongoService.update st c upd []
    ∧ (∀ d : MDoc, matchesFilter [] d = true)
    ∧ (getColl st c = [] →
        (MongoService.update st c upd).1.1 = .error (.notFound "Document not found")
        ∧ (MongoService.update st c upd).2 = st)
    ∧ (∀ d ds, getColl st c = d :: ds →
        (MongoService.update st c upd).1.1 = .ok ()
        ∧ (MongoService.update st c upd).2 = setColl st c (applySet upd d :: ds)) := by
  refine ⟨rfl, fun d => rfl, ?_, ?_⟩
  · intro h
    have hany : (getColl st c).any (matchesFilter []) = false := by rw [h]; rfl
    rw [update_of_no_match st c upd [] hany]
    exact ⟨rfl, rfl⟩
  · intro d ds h
    have hany : (getColl st c).any (matchesFilter []) = true := by
      rw [h]
      simp [List.any_cons]
      exact Or.inl rfl
    rw [update_of_match st c upd [] hany]
    refine ⟨rfl, ?_⟩
    rw [h]
    dsimp only
    simp only [updateFirst]
    have hmd : matchesFilter [] d = true := rfl
    rw [if_pos hmd]

/-- C8: the per-call connection wrapper acquires the connection at call
start and reaches the release step on every exit path — when the callback
returns a success, returns a typed error, or raises in any of the modelled
ways — so the event trace of every call is exactly acquire-then-release. -/
theorem MongoService.withConnection_always_releases (α : Type)
    (outcome : ConnOutcome α) :
    (MongoService.withConnection outcome).2 = [DbEvent.acquire, DbEvent.release] := by
  cases outcome with
  | ret r => cases r <;> rfl
  | threwMongo m => rfl
  | threwError m => rfl
  | threwNonError => rfl

theorem hexChar_hexVal (c : Char)
    (h : (48 ≤ c.toNat ∧ c.toNat ≤ 57) ∨ (97 ≤ c.toNat ∧ c.toNat ≤ 102)) :
    hexChar (hexVal c) = c := by
  rcases h with ⟨h1, h2⟩ | ⟨h1, h2⟩
  · have hv : hexVal c = c.toNat - 48 := by
      unfold hexVal
      rw [if_neg (by omega), if_neg (by omega)]
    rw [hv]
    unfold hexChar
    rw [if_pos (by omega)]
    have heq : 48 + (c.toNat - 48) = c.toNat := by omega
    rw [heq, Char.ofNat_toNat]
  · have hv : hexVal c = c.toNat - 87 := by
      unfold hexVal
      rw [if_pos (by omega)]
    rw [hv]
    unfold hexChar
    rw [if_neg (by omega)]
    have heq : 87 + (c.toNat - 87) = c.toNat := by omega
    rw [heq, Char.ofNat_toNat]

/-- C6 (counterexample): the all-uppercase 24-character hex string is a
syntactically valid identifier encoding — the decoder accepts it — but the
canonical rendering of its decoded value is the all-lowercase string, so
encoding the decoded value does not give back the original string. -/
theorem getIdFromString_roundtrip_counterexample :
    MongoService.getIdFromString "AAAAAAAAAAAAAAAAAAAAAAAA"
        = .ok ⟨List.replicate 24 10⟩
    ∧ ObjectId.toHexString ⟨List.replicate 24 10⟩ = "aaaaaaaaaaaaaaaaaaaaaaaa"
    ∧ "aaaaaaaaaaaaaaaaaaaaaaaa" ≠ "AAAAAAAAAAAAAAAAAAAAAAAA" :=
  ⟨rfl, rfl, by decide⟩

/-- C6 (amended): decoding then re-encoding is the identity on every
syntactically valid identifier string in canonical form, i.e. every
24-character hex string whose letters are lowercase. -/
theorem getIdFromString_roundtrip_lowercase (s : String)
    (hlen : s.data.length = 24)
    (hcanon : ∀ c ∈ s.data,
      (48 ≤ c.toNat ∧ c.toNat ≤ 57) ∨ (97 ≤ c.toNat ∧ c.toNat ≤ 102)) :
    ∃ o, MongoService.getIdFromString s = .ok o ∧ o.toHexString = s := by
  have hall : s.data.all isHexDigitChar = true := by
    rw [List.all_eq_true]
    intro c hc
    rcases hcanon c hc with ⟨h1, h2⟩ | ⟨h1, h2⟩ <;>
      · unfold isHexDigitChar
        simp only [Bool.or_eq_true, Bool.and_eq_true, decide_eq_true_eq]
        omega
  refine ⟨⟨s.data.map hexVal⟩, ?_, ?_⟩
  · unfold MongoService.getIdFromString
    rw [if_pos]
    rw [hlen, hall]
    rfl
  · show String.mk ((s.data.map hexVal).map hexChar) = s
    rw [List.map_map]
    have hmap : s.data.map (hexChar ∘ hexVal) = s.data := by
      have hcongr : ∀ c ∈ s.data, (hexChar ∘ hexVal) c = c := fun c hc =>
        hexChar_hexVal c (hcanon c hc)
      calc s.data.map (hexChar ∘ hexVal) = s.data.map id :=
            List.map_congr_left hcongr
        _ = s.data := List.map_id s.data
    rw [hmap]

/-- C5: `ProjectRepository.update` and `ProjectRepository.delete` filter
the store by the decoded entity identifier only — their filter is exactly
`{_id: decoded}` with no ownership field — so each succeeds on any
document whose `_id` matches, with no constraint at all on the document's
`userId`. -/
theorem ProjectRepository.update_delete_id_filter_only
    (st : Store) (p : Project) (pid : ObjectId)
    (hid : MongoService.getIdFromString p.id = .ok pid)
    (d : MDoc) (hd : d ∈ getColl st "projects")
    (hdid : d.lookup "_id" = some (.oid pid)) :
    ProjectRepository.update st p
        = MongoService.update st "projects" (projectToDoc p) [("_id", .oid pid)]
    ∧ ProjectRepository.delete st p.id
        = MongoService.delete st "projects" [("_id", .oid pid)]
    ∧ (ProjectRepository.update st p).1.1 = .ok ()
    ∧ (ProjectRepository.delete st p.id).1.1 = .ok () := by
  have hmatch : matchesFilter [("_id", BVal.oid pid)] d = true := by
    unfold matchesFilter
    simp [List.all_cons, hdid]
  have hany : (getColl st "projects").any (matchesFilter [("_id", BVal.oid pid)]) = true :=
    List.any_eq_true.mpr ⟨d, hd, hmatch⟩
  have hu : ProjectRepository.update st p
      = MongoService.update st "projects" (projectToDoc p) [("_id", .oid pid)] := by
    unfold ProjectRepository.update
    rw [hid]
  have hdel : ProjectRepository.delete st p.id
      = MongoService.delete st "projects" [("_id", .oid pid)] := by
    unfold ProjectRepository.delete
    rw [hid]
  refine ⟨hu, hdel, ?_, ?_⟩
  · rw [hu, update_of_match _ _ _ _ hany]
  · rw [hdel, delete_of_match _ _ _ hany]

/-- C4: a string that is not a well-formed native identifier encoding makes
every repository operation that decodes it — `getAll`, `getById`, `create`,
`update`, `delete` — return `WrongId` with an empty connection event trace
and (for the mutating operations) an unchanged store: the pure decoder
rejects it before any store call. -/
theorem ProjectRepository.wrongId_before_store
    (st : Store) (s : String) (e0 : MErr)
    (h : MongoService.getIdFromString s = .error e0) :
    (∃ c1, ProjectRepository.getAll st s = (.error (.wrongId c1), []))
    ∧ (∀ user, ∃ c2, ProjectRepository.getById st s user = (.error (.wrongId c2), []))
    ∧ (∀ fields newId, ∃ c3,
        ProjectRepository.create st fields s newId = ((.error (.wrongId c3), []), st))
    ∧ (∀ p : Project, p.id = s →
        ∃ c4, ProjectRepository.update st p = ((.error (.wrongId c4), []), st))
    ∧ (∃ c5, ProjectRepository.delete st s = ((.error (.wrongId c5), []), st)) := by
  obtain ⟨c0, rfl⟩ := getIdFromString_error_shape s e0 h
  refine ⟨⟨c0, ?_⟩, ?_, fun fields newId => ⟨c0, ?_⟩, ?_, ⟨c0, ?_⟩⟩
  · unfold ProjectRepository.getAll
    rw [h]
  · intro user
    cases hu : MongoService.getIdFromString user with
    | error e =>
      obtain ⟨cu, rfl⟩ := getIdFromString_error_shape user e hu
      exact ⟨cu, by unfold ProjectRepository.getById; rw [hu]⟩
    | ok uid =>
      exact ⟨c0, by unfold ProjectRepository.getById; rw [hu, h]⟩
  · unfold ProjectRepository.create
    rw [h]
  · intro p hp
    refine ⟨c0, ?_⟩
    unfold ProjectRepository.update
    rw [hp, h]
  · unfold ProjectRepository.delete
    rw [h]

theorem matchesFilter_id_user (pid uid : ObjectId) (d : MDoc) :
    matchesFilter [("_id", BVal.oid pid), ("userId", BVal.oid uid)] d = true
      ↔ (d.lookup "_id" = some (.oid pid) ∧ d.lookup "userId" = some (.oid uid)) := by
  unfold matchesFilter
  simp [List.all_cons]

theorem matchesFilter_user (uid : ObjectId) (d : MDoc) :
    matchesFilter [("userId", BVal.oid uid)] d = true
      ↔ d.lookup "userId" = some (.oid uid) := by
  unfold matchesFilter
  simp [List.all_cons]

/-- C1: with both identifiers decoded, `getById` answers `NotFound` both
when no stored document carries the decoded `_id` together with the
decoded `userId` — covering the absent case and the owned-by-another-user
case alike, with no permission-specific error — and every success of
`getById` or `getAll` comes from a stored document whose ownership field
equals the decoded owner. -/
theorem ProjectRepository.owner_scoping
    (st : Store) (id user : String) (pid uid : ObjectId)
    (hid : MongoService.getIdFromString id = .ok pid)
    (huser : MongoService.getIdFromString user = .ok uid) :
    ((∀ d ∈ getColl st "projects",
        ¬(d.lookup "_id" = some (.oid pid) ∧ d.lookup "userId" = some (.oid uid))) →
      (ProjectRepository.getById st id user).1
        = .error (.notFound "Document not found"))
    ∧ (∀ p, (ProjectRepository.getById st id user).1 = .ok p →
        ∃ d ∈ getColl st "projects",
          d.lookup "_id" = some (.oid pid) ∧ d.lookup "userId" = some (.oid uid))
    ∧ (∀ ps, (ProjectRepository.getAll st user).1 = .ok ps →
        ∀ p ∈ ps, ∃ d ∈ getColl st "projects",
          d.lookup "userId" = some (.oid uid)
          ∧ projectSchema (MongoService.transformId d) = .ok p) := by
  refine ⟨?_, ?_, ?_⟩
  · intro hno
    have hF : (getColl st "projects").find?
        (matchesFilter [("_id", BVal.oid pid), ("userId", BVal.oid uid)]) = none := by
      rw [List.find?_eq_none]
      intro d hd hmatch
      exact hno d hd ((matchesFilter_id_user pid uid d).mp hmatch)
    unfold ProjectRepository.getById
    rw [huser, hid]
    dsimp only
    rw [getOne_of_find_none _ _ _ _ hF]
  · intro p hp
    unfold ProjectRepository.getById at hp
    rw [huser, hid] at hp
    dsimp only at hp
    cases hr : (MongoService.getOne st "projects"
        [("_id", .oid pid), ("userId", .oid uid)] projectSchema).1 with
    | error e => rw [hr] at hp; cases hp
    | ok project =>
      obtain ⟨d, hF, _⟩ := getOne_ok_inv _ _ _ _ _ hr
      have hd : d ∈ getColl st "projects" := List.mem_of_find?_eq_some hF
      have hmatch := List.find?_some hF
      exact ⟨d, hd, (matchesFilter_id_user pid uid d).mp hmatch⟩
  · intro ps hps p hp
    unfold ProjectRepository.getAll at hps
    rw [huser] at hps
    dsimp only at hps
    cases hr : (MongoService.getMany st "projects" projectSchema
        [("userId", .oid uid)]).1 with
    | error e => rw [hr] at hps; cases hps
    | ok projects =>
      rw [hr] at hps
      cases hps
      have hP := getMany_ok_inv _ _ _ _ _ hr
      rw [List.mem_map] at hp
      obtain ⟨p0, hp0, rfl⟩ := hp
      obtain ⟨td, htd, hschema⟩ := parseArray_ok_member _ _ _ hP p0 hp0
      rw [List.mem_map] at htd
      obtain ⟨d, hdf, rfl⟩ := htd
      rw [List.mem_filter] at hdf
      refine ⟨d, hdf.1, (matchesFilter_user uid d).mp hdf.2, ?_⟩
      exact hschema

/-- C9: whenever `ProjectRepository.getById` succeeds, the `id` field of
the returned entity is exactly the caller-supplied id string — the result
is built by overwriting the validated document's `id` with the input. -/
theorem ProjectRepository.getById_returns_input_id
    (st : Store) (id user : String) (p : Project)
    (h : (ProjectRepository.getById st id user).1 = .ok p) :
    p.id = id := by
  unfold ProjectRepository.getById at h
  cases hu : MongoService.getIdFromString user with
  | error e => rw [hu] at h; cases h
  | ok uid =>
    rw [hu] at h
    cases hi : MongoService.getIdFromString id with
    | error e => rw [hi] at h; cases h
    | ok pid =>
      rw [hi] at h
      dsimp only at h
      cases hr : (MongoService.getOne st "projects"
          [("_id", .oid pid), ("userId", .oid uid)] projectSchema).1 with
      | error e => rw [hr] at h; cases h
      | ok project =>
        rw [hr] at h
        cases h
        rfl

/-! ### Witnesses: the theorems evaluated at the sample data -/

/-- C1 witness: a stored project owned by one user is reported `NotFound`
when fetched by id under another user's id. -/
theorem ProjectRepository.owner_scoping_witness :
    (ProjectRepository.getById sampleStore pidStr otherUidStr).1
      = .error (.notFound "Document not found") :=
  (ProjectRepository.owner_scoping sampleStore pidStr otherUidStr samplePid otherUid
      rfl rfl).1 (by decide)

/-- C2 witness: `getOne` on the sample store returns the normalized,
validated project. -/
theorem MongoService.getOne_spec_witness :
    (MongoService.getOne sampleStore "projects" [("_id", BVal.oid samplePid)]
        projectSchema).1 = .ok sampleProject :=
  ((MongoService.getOne_spec sampleStore "projects" [("_id", BVal.oid samplePid)]
      projectSchema).2.1 sampleDoc (by rfl)).1 sampleProject (by rfl)

/-- C3 witness: updating only `name` succeeds on the matching document and
leaves `description` unchanged under the `$set` merge. -/
theorem MongoService.update_spec_witness :
    (MongoService.update sampleStore "projects" [("name", BVal.str "Updated")]
        [("_id", BVal.oid samplePid)]).1.1 = .ok ()
    ∧ (applySet [("name", BVal.str "Updated")] sampleDoc).lookup "description"
        = sampleDoc.lookup "description" :=
  ⟨((MongoService.update_spec sampleStore "projects" [("name", BVal.str "Updated")]
      [("_id", BVal.oid samplePid)]).2.1 ⟨sampleDoc, by decide, by rfl⟩).1,
    (MongoService.update_spec sampleStore "projects" [("name", BVal.str "Updated")]
      [("_id", BVal.oid samplePid)]).2.2.1 sampleDoc "description" (by rfl)⟩

/-- C4 witness: deleting with the malformed id "xyz" yields `WrongId`, no
connection events, and an unchanged store. -/
theorem ProjectRepository.wrongId_before_store_witness :
    ∃ c5, ProjectRepository.delete sampleStore "xyz"
      = ((.error (.wrongId c5), []), sampleStore) :=
  (ProjectRepository.wrongId_before_store sampleStore "xyz"
      (.wrongId ("input must be a 24 character hex string: " ++ "xyz")) rfl).2.2.2.2

/-- C5 witness: the repository `update` succeeds on the sample store even
though the witness supplies no fact about the stored document's owner. -/
theorem ProjectRepository.update_delete_id_filter_only_witness :
    (ProjectRepository.update sampleStore sampleProject).1.1 = .ok () :=
  (ProjectRepository.update_delete_id_filter_only sampleStore sampleProject samplePid
      rfl sampleDoc (by decide) rfl).2.2.1

/-- C6 witness: a canonical lowercase identifier string round-trips. -/
theorem getIdFromString_roundtrip_lowercase_witness :
    ∃ o, MongoService.getIdFromString "0123456789abcdef01234567" = .ok o
      ∧ o.toHexString = "0123456789abcdef01234567" :=
  getIdFromString_roundtrip_lowercase "0123456789abcdef01234567" (by decide) (by decide)

/-- C9 witness: the entity returned by `getById` carries exactly the
requested id string. -/
theorem ProjectRepository.getById_returns_input_id_witness :
    sampleProject.id = pidStr :=
  ProjectRepository.getById_returns_input_id sampleStore pidStr uidStr sampleProject
    (by rfl)

/-- C10 witness: calling the access layer's `update` without a filter
applies the merge to the first document of the sample collection. -/
theorem MongoService.update_default_filter_witness :
    (MongoService.update sampleStore "projects" [("name", BVal.str "Renamed")]).1.1
      = .ok () :=
  ((MongoService.update_default_filter sampleStore "projects"
      [("name", BVal.str "Renamed")]).2.2.2 sampleDoc [] (by rfl)).1
